import Mathlib

/-!
Shallow embedding of the 4-in-a-Row backend (Go) for verification.

Sources embedded here:
* `backend/internal/game/board.go` — board type, `ApplyMove`, `evaluate`,
  `winningCoords`, `CopyBoard`;
* `backend/internal/game/bot.go` — `ChooseMove`, `findImmediate`, `canPlay`;
* `backend/internal/game/manager.go` — `Manager`, `AssignPlayer`,
  `StartBotGame`, `HandleMove`, `MarkDisconnected`, `Abandon`,
  `SweepDisconnects`, `findRemainingPlayer`.

Go maps are embedded as association lists (first-match lookup); Go map
literals with duplicate keys keep the last entry, which `mkPlayers` mirrors.
Pointer-receiver mutation of `Board` in `ApplyMove` is made explicit: the
embedded `applyMove` returns the result together with the receiver's final
value.  Wall-clock times and generated UUIDs are passed as explicit
arguments.  The `onFinish` callback is modelled by returning the list of
session snapshots the operation fired it on.
-/

namespace FourInARow

/-! ## Grid engine (`board.go`) -/

abbrev Columns : Nat := 7
abbrev Rows : Nat := 6

abbrev CellEmpty : Nat := 0
abbrev CellP1 : Nat := 1
abbrev CellP2 : Nat := 2

inductive GameError where
  | columnFull
  | invalidTurn
  | invalidCol
  | gameFinished
deriving DecidableEq, Repr

/-- `Board [Rows][Columns]int`, indexed `board[row][col]`, row 0 on top. -/
abbrev Board := Fin Rows → Fin Columns → Nat

def emptyBoard : Board := fun _ _ => CellEmpty

/-- Assignment `b[r][c] = v`. -/
def setCell (b : Board) (r : Fin Rows) (c : Fin Columns) (v : Nat) : Board :=
  fun r' c' => if r' = r ∧ c' = c then v else b r' c'

/-- In-bounds test `r >= 0 && r < Rows && c >= 0 && c < Columns`. -/
def inBounds (r c : Int) : Bool :=
  0 ≤ r && r < (Rows : Int) && 0 ≤ c && c < (Columns : Int)

/-- Read `board[r][c]` at integer coordinates; in the embedded code every
read is guarded by `inBounds`, so the out-of-range default is never hit. -/
def bget (b : Board) (r c : Int) : Nat :=
  if h : 0 ≤ r ∧ r < (Rows : Int) ∧ 0 ≤ c ∧ c < (Columns : Int) then
    b ⟨r.toNat, by omega⟩ ⟨c.toNat, by omega⟩
  else CellEmpty

structure MoveResult where
  board : Board
  winner : Nat
  isDraw : Bool
  winning : List (Int × Int)
deriving DecidableEq

instance : DecidableEq (Except GameError MoveResult) := fun a b =>
  match a, b with
  | Except.ok x, Except.ok y =>
      decidable_of_iff (x = y) (by simp)
  | Except.error x, Except.error y =>
      decidable_of_iff (x = y) (by simp)
  | Except.ok _, Except.error _ => isFalse (by simp)
  | Except.error _, Except.ok _ => isFalse (by simp)

/-- The `check` closure of `winningCoords`: walk from `(r, c)` while in
bounds and on the player's cells, collecting coordinates, stepping by
`(dx, dy)` each iteration (as in the source, both `check` calls step by
`+dx, +dy`).  The loop is bounded by the board size; fuel `Rows + Columns`
is more than any possible walk. -/
def checkRun (b : Board) (player : Nat) (dx dy : Int) :
    Nat → Int → Int → List (Int × Int)
  | 0, _, _ => []
  | fuel + 1, r, c =>
    if inBounds r c then
      if bget b r c = player then
        (r, c) :: checkRun b player dx dy fuel (r + dx) (c + dy)
      else []
    else []

def winningCoords (b : Board) (row col : Int) (player : Nat) (dx dy : Int) :
    List (Int × Int) :=
  let coords := (row, col) ::
    (checkRun b player dx dy (Rows + Columns) (row + dx) (col + dy) ++
     checkRun b player dx dy (Rows + Columns) (row - dx) (col - dy))
  if 4 ≤ coords.length then coords else []

def directionList : List (Int × Int) := [(1, 0), (0, 1), (1, 1), (1, -1)]

/-- The draw scan in `evaluate`: no empty cell in the top row. -/
def topRowFull (b : Board) : Bool :=
  (List.finRange Columns).all fun c => !(b 0 c == CellEmpty)

def evaluate (b : Board) (row col : Int) (player : Nat) : MoveResult :=
  match directionList.find?
      (fun d => 4 ≤ (winningCoords b row col player d.1 d.2).length) with
  | some d =>
      { board := b, winner := player, isDraw := false,
        winning := winningCoords b row col player d.1 d.2 }
  | none =>
      { board := b, winner := 0, isDraw := topRowFull b, winning := [] }

/-- The placement scan of `ApplyMove`: `for row := Rows-1; row >= 0; row--`,
returning the first (bottom-most) empty row of the column. -/
def lowestEmpty (b : Board) (c : Fin Columns) : Option (Fin Rows) :=
  (List.finRange Rows).reverse.find? fun r => b r c == CellEmpty

/-- `func (b *Board) ApplyMove(col, player int) (MoveResult, error)`.
The second component is the final value of the pointer receiver `*b`
(mutated on success, untouched on failure). -/
def applyMove (b : Board) (col : Int) (player : Nat) :
    Except GameError MoveResult × Board :=
  if h : col < 0 ∨ (Columns : Int) ≤ col then
    (Except.error GameError.invalidCol, b)
  else
    let c : Fin Columns := ⟨col.toNat, by omega⟩
    match lowestEmpty b c with
    | some r =>
        let b2 := setCell b r c player
        (Except.ok (evaluate b2 ((r : Nat) : Int) col player), b2)
    | none => (Except.error GameError.columnFull, b)

def copyBoard (src : Board) : Board := fun r c => src r c

/-- Modelled from the spec (§4.1, §8): the board genuinely contains a run of
four contiguous same-mark cells in one of the four line directions.  This is
the specification-side notion of a win, kept separate from the engine's
`evaluate`/`winningCoords` so the two can be compared. -/
def hasLineOfFour (b : Board) (p : Nat) : Bool :=
  (List.finRange Rows).any fun r =>
  (List.finRange Columns).any fun c =>
  directionList.any fun d =>
  (List.range 4).all fun i =>
    inBounds (((r : Nat) : Int) + i * d.1) (((c : Nat) : Int) + i * d.2) &&
    bget b (((r : Nat) : Int) + i * d.1) (((c : Nat) : Int) + i * d.2) == p

/-- Bottom row holds the mover's pieces at columns 0, 1, 2: dropping into
column 3 completes a genuine horizontal four-in-a-row at its high end. -/
def tripleLowBoard : Board :=
  setCell (setCell (setCell emptyBoard 5 0 CellP1) 5 1 CellP1) 5 2 CellP1

/-- Bottom row holds the mover's pieces at columns 2 and 4 only: dropping
into column 3 yields a run of three, not four. -/
def gapBoard : Board := setCell (setCell emptyBoard 5 2 CellP1) 5 4 CellP1

/-! ## Heuristic opponent (`bot.go`) -/

/-- `canPlay`: the top cell of the column is empty.  The bot only ever asks
about columns `0 ≤ col < Columns`. -/
def canPlay (b : Board) (col : Nat) : Bool :=
  if h : col < Columns then b 0 ⟨col, h⟩ == CellEmpty else false

/-- The simulation step of `findImmediate`: copy the board, apply the move,
read `res.Winner` (the error is discarded; a zero `MoveResult` has winner
0). -/
def simulatedWinner (b : Board) (col : Nat) (player : Nat) : Nat :=
  match (applyMove (copyBoard b) (col : Int) player).1 with
  | Except.ok res => res.winner
  | Except.error _ => 0

/-- The per-column test of `findImmediate`: playable and the simulated move
reports `player` as winner. -/
def immediateWin (b : Board) (player : Nat) (col : Nat) : Bool :=
  canPlay b col && (simulatedWinner b col player == player)

/-- `findImmediate`: scan columns left to right, return the first immediate
win (`(col, true)` / `(-1, false)` becomes an `Option`). -/
def findImmediate (b : Board) (player : Nat) : Option Nat :=
  (List.range Columns).find? (immediateWin b player)

/-- The bot's adversary: `opponent := CellP1; if b.Player == CellP1 {
opponent = CellP2 }`. -/
def opponentOf (player : Nat) : Nat :=
  if player = CellP1 then CellP2 else CellP1

def preferred : List Nat := [3, 2, 4, 1, 5, 0, 6]

/-- `(b *Bot) ChooseMove(board)` for a bot with mark `player`.  The
`rand.Seed` call in the source has no influence on the returned column. -/
def chooseMove (b : Board) (player : Nat) : Nat :=
  match findImmediate b player with
  | some move => move
  | none =>
    match findImmediate b (opponentOf player) with
    | some move => move
    | none =>
      match preferred.find? (fun col => canPlay b col) with
      | some col => col
      | none =>
        match (List.range Columns).find? (fun col => canPlay b col) with
        | some col => col
        | none => 0

/-- Repeated drops into one column: the receiver board after `n` calls of
`ApplyMove` on the same column. -/
def dropSeq (b : Board) (col : Int) (player : Nat) : Nat → Board
  | 0 => b
  | n + 1 => (applyMove (dropSeq b col player n) col player).2

/-! ## Session registry (`manager.go`)

Go `map` values are embedded as association lists with first-match lookup
(`List.lookup`); `setAssoc`/`delAssoc` mirror map assignment and `delete`.
Map iteration order in Go is unspecified; the list order stands in for one
such order.  `time.Now()` and `uuid.NewString()` results are explicit
arguments (`now`, `newId`); `go m.onFinish(game)` is modelled by returning
the snapshots the callback fired on. -/

def StatusWaiting : String := "waiting"
def StatusActive : String := "active"
def StatusFinished : String := "finished"

structure Player where
  username : String
  slot : Nat
  isBot : Bool
deriving DecidableEq, Repr

structure GameState where
  id : String
  board : Board
  status : String
  winner : String
  startedAt : Int
  endedAt : Int
  turn : Nat
  lastMoveAt : Int
  players : List (String × Player)
  bot : Option Nat
deriving DecidableEq

structure Manager where
  waiting : Option Player
  games : List (String × GameState)
  userToGame : List (String × String)
  reconnectAfter : Int
deriving DecidableEq

structure Move where
  username : String
  gameId : String
  column : Int
deriving DecidableEq, Repr

/-- Map assignment `m[k] = v`. -/
def setAssoc {α : Type} (l : List (String × α)) (k : String) (v : α) :
    List (String × α) :=
  match l with
  | [] => [(k, v)]
  | (k', v') :: rest =>
      if k' = k then (k, v) :: rest else (k', v') :: setAssoc rest k v

/-- Map `delete(m, k)`. -/
def delAssoc {α : Type} (l : List (String × α)) (k : String) :
    List (String × α) :=
  match l with
  | [] => []
  | (k', v') :: rest =>
      if k' = k then rest else (k', v') :: delAssoc rest k

/-- A two-entry Go map literal: with equal keys the later entry wins. -/
def mkPlayers (a b : String × Player) : List (String × Player) :=
  if a.1 = b.1 then [b] else [a, b]

def newManager (reconnectWindow : Int) : Manager :=
  { waiting := none, games := [], userToGame := [],
    reconnectAfter := reconnectWindow }

/-- The rejoin test shared by `AssignPlayer` and `StartBotGame`: the
username maps to an existing, non-finished game. -/
def rejoinGame (m : Manager) (username : String) : Option GameState :=
  match m.userToGame.lookup username with
  | some gid =>
      match m.games.lookup gid with
      | some g => if g.status ≠ StatusFinished then some g else none
      | none => none
  | none => none

structure AssignResult where
  game : Option GameState
  player : Option Player
  isWaiting : Bool
  mgr : Manager
deriving DecidableEq

def assignPlayer (m : Manager) (username newId : String) (now : Int) :
    AssignResult :=
  match rejoinGame m username with
  | some g => ⟨some g, g.players.lookup username, false, m⟩
  | none =>
    let player : Player := ⟨username, CellP1, false⟩
    match m.waiting with
    | none => ⟨none, some player, true, { m with waiting := some player }⟩
    | some opponent =>
      let game : GameState :=
        { id := newId
          board := emptyBoard
          status := StatusActive
          winner := ""
          startedAt := now
          endedAt := 0
          turn := CellP1
          lastMoveAt := now
          players := mkPlayers (opponent.username, opponent)
            (username, ⟨username, CellP2, false⟩)
          bot := none }
      let m2 : Manager :=
        { m with
          waiting := none
          games := setAssoc m.games game.id game
          userToGame := setAssoc (setAssoc m.userToGame username game.id)
            opponent.username game.id }
      ⟨some game, game.players.lookup username, false, m2⟩

def startBotGame (m : Manager) (human newId : String) (now : Int) :
    GameState × Manager :=
  match rejoinGame m human with
  | some g => (g, m)
  | none =>
    let game : GameState :=
      { id := newId
        board := emptyBoard
        status := StatusActive
        winner := ""
        startedAt := now
        endedAt := 0
        turn := CellP1
        lastMoveAt := now
        players := mkPlayers (human, ⟨human, CellP1, false⟩)
          ("bot", ⟨"bot", CellP2, true⟩)
        bot := some CellP2 }
    (game,
      { m with
        games := setAssoc m.games game.id game
        userToGame := setAssoc m.userToGame human game.id })

structure HandleResult where
  res : Except GameError MoveResult
  game : Option GameState
  mgr : Manager
  fired : List GameState

def handleMove (m : Manager) (mv : Move) (now : Int) : HandleResult :=
  match m.games.lookup mv.gameId with
  | none => ⟨Except.error GameError.invalidTurn, none, m, []⟩
  | some game =>
    if game.status = StatusFinished then
      ⟨Except.error GameError.gameFinished, some game, m, []⟩
    else
      match game.players.lookup mv.username with
      | none => ⟨Except.error GameError.invalidTurn, some game, m, []⟩
      | some player =>
        if game.turn ≠ player.slot then
          ⟨Except.error GameError.invalidTurn, some game, m, []⟩
        else
          match applyMove game.board mv.column player.slot with
          | (Except.error e, _) => ⟨Except.error e, some game, m, []⟩
          | (Except.ok res, b2) =>
            let g1 : GameState :=
              { game with
                board := b2
                lastMoveAt := now }
            if res.winner ≠ 0 then
              let g2 : GameState :=
                { g1 with
                  status := StatusFinished
                  winner := mv.username
                  endedAt := now }
              ⟨Except.ok res, some g2,
                { m with games := setAssoc m.games mv.gameId g2 }, [g2]⟩
            else if res.isDraw then
              let g2 : GameState :=
                { g1 with
                  status := StatusFinished
                  endedAt := now }
              ⟨Except.ok res, some g2,
                { m with games := setAssoc m.games mv.gameId g2 }, [g2]⟩
            else
              let g2 : GameState := { g1 with
                turn := if g1.turn = CellP1 then CellP2 else CellP1 }
              ⟨Except.ok res, some g2,
                { m with games := setAssoc m.games mv.gameId g2 }, []⟩

def markDisconnected (m : Manager) (username : String) (now : Int) :
    Manager :=
  match m.userToGame.lookup username with
  | some gid =>
      match m.games.lookup gid with
      | some g =>
          { m with games := setAssoc m.games gid { g with lastMoveAt := now } }
      | none => m
  | none => m

/-- `Abandon`: drop the identity from the index and clear the waiting slot
if it is this identity.  (The Go code deletes from the index first and then
inspects `m.waiting`; the two fields are independent, so the waiting check
reads the original value.) -/
def abandon (m : Manager) (username : String) : Manager :=
  let u2 := delAssoc m.userToGame username
  match m.waiting with
  | some w =>
      if w.username = username then
        { m with userToGame := u2, waiting := none }
      else { m with userToGame := u2 }
  | none => { m with userToGame := u2 }

/-- `findRemainingPlayer`: first non-bot participant's map key, else
`"bot"`. -/
def findRemainingPlayer (g : GameState) : String :=
  match g.players.find? (fun e => !e.2.isBot) with
  | some e => e.1
  | none => "bot"

/-- The per-game body of the sweep loop: the updated entry and the snapshot
the finish callback fired on (if any). -/
def sweepGame (reconnectAfter now : Int) (entry : String × GameState) :
    (String × GameState) × Option GameState :=
  let g := entry.2
  if g.status ≠ StatusFinished ∧ reconnectAfter < now - g.lastMoveAt then
    let g2 : GameState :=
      { g with
        status := StatusFinished
        winner := findRemainingPlayer g
        endedAt := now }
    ((entry.1, g2), some g2)
  else (entry, none)

def sweepDisconnects (m : Manager) (now : Int) : Manager × List GameState :=
  let swept := m.games.map (sweepGame m.reconnectAfter now)
  ({ m with games := swept.map Prod.fst }, swept.filterMap Prod.snd)

/-! ## Helper lemmas -/

theorem lookup_setAssoc_self {α : Type} (l : List (String × α)) (k : String)
    (v : α) : (setAssoc l k v).lookup k = some v := by
  induction l with
  | nil => simp [setAssoc, List.lookup]
  | cons a rest ih =>
    by_cases h : a.1 = k
    · rw [setAssoc, if_pos h]
      simp [List.lookup]
    · rw [setAssoc, if_neg h]
      have hbe : (k == a.1) = false :=
        beq_eq_false_iff_ne.mpr (fun he => h he.symm)
      simp only [List.lookup, hbe]
      exact ih

theorem lookup_setAssoc_ne {α : Type} (l : List (String × α)) (k k' : String)
    (v : α) (h : k' ≠ k) : (setAssoc l k v).lookup k' = l.lookup k' := by
  have hbe : (k' == k) = false := beq_eq_false_iff_ne.mpr h
  induction l with
  | nil => simp [setAssoc, List.lookup, hbe]
  | cons a rest ih =>
    by_cases ha : a.1 = k
    · rw [setAssoc, if_pos ha]
      simp only [List.lookup, ha, hbe]
    · rw [setAssoc, if_neg ha]
      simp only [List.lookup]
      cases hbe2 : (k' == a.1 : Bool)
      · simp only [hbe2]
        exact ih
      · simp only [hbe2]

theorem mem_setAssoc {α : Type} {l : List (String × α)} {k : String} {v : α}
    {e : String × α} (he : e ∈ setAssoc l k v) : e = (k, v) ∨ e ∈ l := by
  induction l with
  | nil => simpa [setAssoc] using he
  | cons a rest ih =>
    by_cases ha : a.1 = k
    · rw [setAssoc, if_pos ha] at he
      rcases List.mem_cons.mp he with h | h
      · exact Or.inl h
      · exact Or.inr (List.mem_cons_of_mem _ h)
    · rw [setAssoc, if_neg ha] at he
      rcases List.mem_cons.mp he with h | h
      · exact Or.inr (h ▸ List.mem_cons_self _ _)
      · rcases ih h with h' | h'
        · exact Or.inl h'
        · exact Or.inr (List.mem_cons_of_mem _ h')

theorem lookup_mem {α : Type} {l : List (String × α)} {k : String} {v : α}
    (h : l.lookup k = some v) : (k, v) ∈ l := by
  induction l with
  | nil => simp [List.lookup] at h
  | cons a rest ih =>
    simp only [List.lookup] at h
    cases hbe : (k == a.1 : Bool) with
    | true =>
      simp only [hbe] at h
      obtain rfl : a.2 = v := by simpa using h
      have hk : k = a.1 := eq_of_beq hbe
      have : (k, a.2) = a := by
        rw [hk]
      exact this ▸ List.mem_cons_self _ _
    | false =>
      simp only [hbe] at h
      exact List.mem_cons_of_mem _ (ih h)

theorem find?_of_filter_singleton {α : Type} {p : α → Bool} {l : List α}
    {x : α} (h : l.filter p = [x]) : l.find? p = some x := by
  induction l with
  | nil => simp at h
  | cons a rest ih =>
    by_cases hp : p a
    · rw [List.filter_cons_of_pos hp] at h
      obtain ⟨rfl, -⟩ : a = x ∧ rest.filter p = [] := by
        simpa using h
      exact List.find?_cons_of_pos _ hp
    · rw [List.filter_cons_of_neg (by simpa using hp)] at h
      rw [List.find?_cons_of_neg _ (by simpa using hp)]
      exact ih h

/-- `find?` over `List.range 7` returns the least index satisfying the
predicate. -/
theorem find_range7 {pred : Nat → Bool} {c : Nat} (hc : c < 7)
    (hpc : pred c = true) (hmin : ∀ x, x < c → pred x = false) :
    (List.range 7).find? pred = some c := by
  have e : List.range 7 = [0, 1, 2, 3, 4, 5, 6] := by decide
  rw [e]
  interval_cases c
  · simp [List.find?, hpc]
  · simp [List.find?, hpc, hmin 0 (by omega)]
  · simp [List.find?, hpc, hmin 0 (by omega), hmin 1 (by omega)]
  · simp [List.find?, hpc, hmin 0 (by omega), hmin 1 (by omega),
      hmin 2 (by omega)]
  · simp [List.find?, hpc, hmin 0 (by omega), hmin 1 (by omega),
      hmin 2 (by omega), hmin 3 (by omega)]
  · simp [List.find?, hpc, hmin 0 (by omega), hmin 1 (by omega),
      hmin 2 (by omega), hmin 3 (by omega), hmin 4 (by omega)]
  · simp [List.find?, hpc, hmin 0 (by omega), hmin 1 (by omega),
      hmin 2 (by omega), hmin 3 (by omega), hmin 4 (by omega),
      hmin 5 (by omega)]

theorem evaluate_board (b : Board) (r c : Int) (p : Nat) :
    (evaluate b r c p).board = b := by
  unfold evaluate
  split <;> rfl

/-- `lowestEmpty` finds nothing in a fully occupied column. -/
theorem lowestEmpty_eq_none {b : Board} {c : Fin Columns}
    (hfull : ∀ r : Fin Rows, b r c ≠ CellEmpty) : lowestEmpty b c = none := by
  unfold lowestEmpty
  apply List.find?_eq_none.mpr
  intro r _
  simp [hfull r]

/-- The bottom-up scan over a column, abstractly: `find?` over the reversed
row list hits the greatest row satisfying the predicate.  The predicate
ranges over the (finite) type `Fin Rows → Bool`, so this is decidable. -/
theorem find_desc : ∀ (p : Fin Rows → Bool) (r : Fin Rows), p r = true →
    (∀ r', r < r' → p r' = false) →
    (List.finRange Rows).reverse.find? p = some r := by decide

theorem lowestEmpty_eq_some {b : Board} {c : Fin Columns} {r : Fin Rows}
    (hr : b r c = CellEmpty)
    (hbelow : ∀ r' : Fin Rows, r < r' → b r' c ≠ CellEmpty) :
    lowestEmpty b c = some r :=
  find_desc (fun r => b r c == CellEmpty) r (beq_iff_eq.mpr hr)
    (fun r' h => beq_eq_false_iff_ne.mpr (hbelow r' h))

/-- `applyMove` at an in-range column, with the receiver's `Fin` index
recovered. -/
theorem applyMove_inbounds (b : Board) (c : Fin Columns) (p : Nat) :
    applyMove b ((c : Nat) : Int) p =
      match lowestEmpty b c with
      | some r =>
          (Except.ok (evaluate (setCell b r c p) ((r : Nat) : Int)
            ((c : Nat) : Int) p), setCell b r c p)
      | none => (Except.error GameError.columnFull, b) := by
  unfold applyMove
  rw [dif_neg (by omega)]
  simp only [Int.toNat_natCast, Fin.eta]

/-- A board that is full except for the top cell of column 3; the cells
around that hole are placed so that the completing horizontal four in the
top row (columns 0–3) is at its high end and every `winningCoords` walk
through the placed cell stays short. -/
def fullMissRows : List (List Nat) :=
  [[1, 1, 1, 0, 2, 1, 2],
   [2, 2, 2, 2, 2, 2, 1],
   [1, 1, 2, 1, 1, 1, 2],
   [2, 2, 1, 2, 2, 2, 1],
   [1, 1, 2, 1, 1, 1, 2],
   [2, 2, 1, 2, 2, 2, 1]]

def fullMissBoard : Board := fun r c => ((fullMissRows.getD r []).getD c 0)

/-- A completely occupied board. -/
def fullOnesBoard : Board := fun _ _ => CellP1

/-! ## Claim theorems -/

/-- C1 (code_bug evidence).  The claim: every move completing a run of ≥ 4
same-mark cells is reported as a win with the full run through the placed
cell.  The code disagrees: dropping mark 1 into column 3 of a board whose
bottom row already holds mark 1 in columns 0–2 completes a genuine
horizontal four-in-a-row (`hasLineOfFour` of the resulting board is true),
yet `ApplyMove` reports winner 0, no draw and an empty winning list.  The
cause is in `winningCoords`: the backward `check(row-dx, col-dy)` call still
steps by `+dx, +dy`, so it immediately walks forward again and the run
completed at its high end is counted as length 3. -/
theorem applyMove_misses_completed_run :
    (applyMove tripleLowBoard 3 1).1 =
      Except.ok { board := setCell tripleLowBoard 5 3 CellP1, winner := 0,
                  isDraw := false, winning := [] } ∧
    hasLineOfFour (setCell tripleLowBoard 5 3 CellP1) CellP1 = true := by
  decide

/-- C9 (code_bug evidence).  The claim: a draw is reported exactly when the
placed move produces no winning run and the top row is full, and in every
other no-winner situation the outcome carries neither winner nor draw flag.
Two refutations at concrete inputs:
1. on `fullMissBoard`, the final drop into column 3 completes a genuine
   horizontal four (`hasLineOfFour` true) yet the outcome is `is-draw=true`
   with winner 0 — a draw is reported although a winning run was produced;
2. on `gapBoard`, the drop into column 3 makes only three in a row (no line
   of four for either mark, top row not full), yet the outcome reports
   winner 1 (with duplicated coordinates) instead of carrying neither flag.
Both stem from the `winningCoords` walk stepping by `+dx, +dy` on the
backward arm. -/
theorem applyMove_draw_winner_misreport :
    ((applyMove fullMissBoard 3 1).1 =
        Except.ok { board := setCell fullMissBoard 0 3 CellP1, winner := 0,
                    isDraw := true, winning := [] } ∧
      hasLineOfFour (setCell fullMissBoard 0 3 CellP1) CellP1 = true) ∧
    ((applyMove gapBoard 3 1).1 =
        Except.ok { board := setCell gapBoard 5 3 CellP1, winner := 1,
                    isDraw := false,
                    winning := [(5, 3), (5, 4), (5, 2), (5, 3), (5, 4)] } ∧
      hasLineOfFour (setCell gapBoard 5 3 CellP1) CellP1 = false ∧
      hasLineOfFour (setCell gapBoard 5 3 CellP1) CellP2 = false ∧
      topRowFull (setCell gapBoard 5 3 CellP1) = false) := by decide

/-- C8 counterexample.  The claim: `ApplyMove` does not mutate the caller's
grid, so lookahead is safe without first taking a private copy.  The code
disagrees: `ApplyMove` has a pointer receiver and writes the placed mark
into it; after applying a move to the empty board the receiver differs from
the empty board. -/
theorem applyMove_mutates_caller :
    (applyMove emptyBoard 0 CellP1).2 ≠ emptyBoard := by decide

/-- C8 (amended).  `ApplyMove` is deterministic in the grid and its inputs
with no hidden state, but it mutates the caller's grid on success: the
receiver afterwards equals the grid in the returned `MoveOutcome`, and is
left unchanged on failure.  Safe lookahead therefore requires a private
copy first, which `CopyBoard` provides (`CopyBoard src = src`) and the
opponent's `findImmediate` takes. -/
theorem applyMove_receiver_spec (b : Board) (col : Int) (p : Nat) :
    (∀ res, (applyMove b col p).1 = Except.ok res →
      (applyMove b col p).2 = res.board) ∧
    (∀ e, (applyMove b col p).1 = Except.error e →
      (applyMove b col p).2 = b) ∧
    copyBoard b = b := by
  by_cases hc : col < 0 ∨ (Columns : Int) ≤ col
  · unfold applyMove
    rw [dif_pos hc]
    exact ⟨fun res h => (nomatch h), fun e _ => rfl, rfl⟩
  · have h0 : (0 : Int) ≤ col := by omega
    have h7 : col.toNat < Columns := by omega
    obtain ⟨c, rfl⟩ : ∃ c : Fin Columns, col = ((c : Nat) : Int) :=
      ⟨⟨col.toNat, h7⟩, (Int.toNat_of_nonneg h0).symm⟩
    rw [applyMove_inbounds]
    cases hle : lowestEmpty b c with
    | none => exact ⟨fun res h => (nomatch h), fun e _ => rfl, rfl⟩
    | some r =>
      refine ⟨fun res h => ?_, fun e h => (nomatch h), rfl⟩
      injection h with h
      subst h
      exact (evaluate_board _ _ _ _).symm

/-- C8 witness: applying the receiver specification at a concrete input. -/
theorem applyMove_receiver_spec_witness :
    (applyMove emptyBoard 0 1).2 =
      (evaluate (setCell emptyBoard 5 0 1) 5 0 1).board :=
  (applyMove_receiver_spec emptyBoard 0 1).1
    (evaluate (setCell emptyBoard 5 0 1) 5 0 1) (by decide)

/-- C10 (implicit claim).  On a completely full grid (top cell of every
column occupied) `ChooseMove` terminates and returns column 0: no column is
playable, so both `findImmediate` scans, the centre-preference scan and the
left-to-right fallback scan all come up empty and the final `return 0` is
reached. -/
theorem chooseMove_total_on_full (b : Board) (player : Nat)
    (hfull : ∀ c : Fin Columns, b 0 c ≠ CellEmpty) :
    chooseMove b player = 0 := by
  have hcp : ∀ col, canPlay b col = false := by
    intro col
    unfold canPlay
    split
    · exact beq_eq_false_iff_ne.mpr (hfull _)
    · rfl
  have him : ∀ p' col, immediateWin b p' col = false := by
    intro p' col
    unfold immediateWin
    rw [hcp col]
    rfl
  have hfi : ∀ p', findImmediate b p' = none := by
    intro p'
    exact List.find?_eq_none.mpr (fun x _ => by simp [him])
  have hpref : preferred.find? (fun col => canPlay b col) = none :=
    List.find?_eq_none.mpr (fun x _ => by simp [hcp])
  have hrange : (List.range Columns).find? (fun col => canPlay b col) =
      none :=
    List.find?_eq_none.mpr (fun x _ => by simp [hcp])
  unfold chooseMove
  rw [hfi, hfi, hpref, hrange]

/-- C10 witness: the bot returns column 0 on a board of all mark-1 cells. -/
theorem chooseMove_total_on_full_witness : chooseMove fullOnesBoard 1 = 0 :=
  chooseMove_total_on_full fullOnesBoard 1 (by decide)

/-- A board whose column 0 is completely occupied and all else empty. -/
def colZeroFullBoard : Board :=
  fun _ c => if c = 0 then CellP1 else CellEmpty

/-- C2.  The `ApplyMove` contract: (a) a column outside `[0, Columns)` is
rejected with `InvalidColumn` and the grid is unchanged; (b) on a
gravity-consistent column (a non-empty cell has no empty cell below it, as
in every grid produced by play) an occupied top cell is rejected with
`ColumnFull`, grid unchanged; (c) otherwise the mark lands in the
bottom-most empty row of the column; (d) consequently, playing `Rows` times
into any one column of the empty grid succeeds every time and the
`(Rows+1)`-th attempt fails with `ColumnFull`. -/
theorem applyMove_contract (b : Board) (col : Int) (p : Nat) :
    ((col < 0 ∨ (Columns : Int) ≤ col) →
      applyMove b col p = (Except.error GameError.invalidCol, b)) ∧
    (∀ c : Fin Columns,
      (∀ r : Fin Rows, b r c ≠ CellEmpty →
        ∀ r' : Fin Rows, r ≤ r' → b r' c ≠ CellEmpty) →
      b 0 c ≠ CellEmpty →
      applyMove b ((c : Nat) : Int) p =
        (Except.error GameError.columnFull, b)) ∧
    (∀ (c : Fin Columns) (r : Fin Rows), b r c = CellEmpty →
      (∀ r' : Fin Rows, r < r' → b r' c ≠ CellEmpty) →
      applyMove b ((c : Nat) : Int) p =
        (Except.ok (evaluate (setCell b r c p) ((r : Nat) : Int)
          ((c : Nat) : Int) p), setCell b r c p)) ∧
    (∀ c : Fin Columns,
      (∀ n : Fin Rows,
        ((applyMove (dropSeq emptyBoard c 1 n) c 1).1).isOk = true) ∧
      (applyMove (dropSeq emptyBoard c 1 Rows) c 1).1 =
        Except.error GameError.columnFull) := by
  refine ⟨?_, ?_, ?_, by decide⟩
  · intro h
    unfold applyMove
    rw [dif_pos h]
  · intro c hgrav htop
    have hfull : ∀ r : Fin Rows, b r c ≠ CellEmpty :=
      fun r => hgrav 0 htop r (Fin.zero_le r)
    rw [applyMove_inbounds, lowestEmpty_eq_none hfull]
  · intro c r hr hbelow
    rw [applyMove_inbounds, lowestEmpty_eq_some hr hbelow]

/-- C2 witness: the contract applied at concrete inputs — column 9 is
invalid, the occupied column 0 of `colZeroFullBoard` is full, and a drop
into column 4 of the empty board lands at the bottom row. -/
theorem applyMove_contract_witness :
    applyMove emptyBoard 9 1 =
      (Except.error GameError.invalidCol, emptyBoard) ∧
    applyMove colZeroFullBoard 0 1 =
      (Except.error GameError.columnFull, colZeroFullBoard) ∧
    applyMove emptyBoard 4 1 =
      (Except.ok (evaluate (setCell emptyBoard 5 4 1) 5 4 1),
       setCell emptyBoard 5 4 1) :=
  ⟨(applyMove_contract emptyBoard 9 1).1 (Or.inr (by decide)),
   (applyMove_contract colZeroFullBoard 0 1).2.1 0 (by decide) (by decide),
   (applyMove_contract emptyBoard 4 1).2.2.1 4 5 (by decide) (by decide)⟩

/-- C7.  The bot's decision order, first applicable rule wins:
1. the lowest-indexed playable column whose simulated own move the engine
   reports as an immediate win;
2. else the lowest-indexed playable column whose simulated adversary move
   the engine reports as an immediate win for the adversary (the block);
3. else the first playable column of the centre-out preference order
   `[3, 2, 4, 1, 5, 0, 6]` — in particular column 3 whenever it is playable
   and neither immediate win nor threat exists. -/
theorem chooseMove_decision_order (b : Board) (player : Nat) :
    (∀ c, immediateWin b player c = true →
      (∀ x, x < c → immediateWin b player x = false) →
      chooseMove b player = c) ∧
    ((∀ x, x < Columns → immediateWin b player x = false) →
      ∀ c, immediateWin b (opponentOf player) c = true →
        (∀ x, x < c → immediateWin b (opponentOf player) x = false) →
        chooseMove b player = c) ∧
    ((∀ x, x < Columns → immediateWin b player x = false) →
      (∀ x, x < Columns → immediateWin b (opponentOf player) x = false) →
      (∀ c, preferred.find? (fun col => canPlay b col) = some c →
        chooseMove b player = c) ∧
      (canPlay b 3 = true → chooseMove b player = 3)) := by
  have hlt : ∀ {c}, immediateWin b player c = true → c < Columns := by
    intro c h
    have hcp : canPlay b c = true := ((Bool.and_eq_true _ _).mp h).1
    unfold canPlay at hcp
    split at hcp
    · assumption
    · cases hcp
  have hltOpp : ∀ {c}, immediateWin b (opponentOf player) c = true →
      c < Columns := by
    intro c h
    have hcp : canPlay b c = true := ((Bool.and_eq_true _ _).mp h).1
    unfold canPlay at hcp
    split at hcp
    · assumption
    · cases hcp
  have hnone : ∀ p', (∀ x, x < Columns → immediateWin b p' x = false) →
      findImmediate b p' = none := by
    intro p' hall
    exact List.find?_eq_none.mpr
      (fun x hx => by simp [hall x (List.mem_range.mp hx)])
  refine ⟨?_, ?_, ?_⟩
  · intro c hc hmin
    have : findImmediate b player = some c :=
      find_range7 (hlt hc) hc hmin
    unfold chooseMove
    rw [this]
  · intro hown c hc hmin
    have h1 : findImmediate b player = none := hnone _ hown
    have h2 : findImmediate b (opponentOf player) = some c :=
      find_range7 (hltOpp hc) hc hmin
    unfold chooseMove
    rw [h1, h2]
  · intro hown hopp
    have h1 : findImmediate b player = none := hnone _ hown
    have h2 : findImmediate b (opponentOf player) = none := hnone _ hopp
    constructor
    · intro c hpf
      unfold chooseMove
      rw [h1, h2, hpf]
    · intro h3
      have hpf : preferred.find? (fun col => canPlay b col) = some 3 := by
        simp [preferred, List.find?, h3]
      unfold chooseMove
      rw [h1, h2, hpf]

/-- C7 witness: on the empty board there is no immediate win or threat for
either mark, column 3 is playable, and the bot plays column 3. -/
theorem chooseMove_decision_order_witness : chooseMove emptyBoard 1 = 3 :=
  ((chooseMove_decision_order emptyBoard 1).2.2 (by decide) (by decide)).2
    (by decide)

/-- C3.  `HandleMove` error handling: unknown session id, non-participant
identity, and out-of-turn moves all yield `InvalidTurn`; a finished session
yields `GameFinished` (checked right after the session lookup); grid-engine
errors are propagated unchanged; and in every one of these error cases the
whole registry — hence the session's grid, status, turn, winner and
timestamps — is returned untouched and no finish callback fires. -/
theorem handleMove_error_spec (m : Manager) (mv : Move) (now : Int) :
    (m.games.lookup mv.gameId = none →
      handleMove m mv now =
        ⟨Except.error GameError.invalidTurn, none, m, []⟩) ∧
    (∀ g, m.games.lookup mv.gameId = some g →
      (g.status = StatusFinished →
        handleMove m mv now =
          ⟨Except.error GameError.gameFinished, some g, m, []⟩) ∧
      (g.status ≠ StatusFinished →
        (g.players.lookup mv.username = none →
          handleMove m mv now =
            ⟨Except.error GameError.invalidTurn, some g, m, []⟩) ∧
        (∀ p, g.players.lookup mv.username = some p →
          (g.turn ≠ p.slot →
            handleMove m mv now =
              ⟨Except.error GameError.invalidTurn, some g, m, []⟩) ∧
          (g.turn = p.slot →
            ∀ e b2, applyMove g.board mv.column p.slot =
                (Except.error e, b2) →
              handleMove m mv now = ⟨Except.error e, some g, m, []⟩)))) := by
  constructor
  · intro h
    simp only [handleMove, h]
  · intro g hg
    refine ⟨fun hfin => ?_, fun hnfin =>
      ⟨fun hpn => ?_, fun p hp =>
        ⟨fun hturn => ?_, fun hturn e b2 hae => ?_⟩⟩⟩
    · simp only [handleMove, hg, if_pos hfin]
    · simp only [handleMove, hg, if_neg hnfin, hpn]
    · simp only [handleMove, hg, if_neg hnfin, hp, if_pos hturn]
    · simp only [handleMove, hg, if_neg hnfin, hp, hae]
      rw [if_neg (fun hne : g.turn ≠ p.slot => hne hturn)]

/-- A concrete human-versus-algorithmic session used for witnesses. -/
def demoMgr : Manager := (startBotGame (newManager 30) "h" "g1" 0).2

def demoGame : GameState := (startBotGame (newManager 30) "h" "g1" 0).1

/-- C3 witness: on the concrete session `g1`, an unknown session id and an
out-of-turn move yield `InvalidTurn`, an out-of-range column propagates
`InvalidColumn`, and the registry is untouched each time. -/
theorem handleMove_error_spec_witness :
    handleMove demoMgr ⟨"h", "nope", 0⟩ 5 =
      ⟨Except.error GameError.invalidTurn, none, demoMgr, []⟩ ∧
    handleMove demoMgr ⟨"bot", "g1", 0⟩ 5 =
      ⟨Except.error GameError.invalidTurn, some demoGame, demoMgr, []⟩ ∧
    handleMove demoMgr ⟨"h", "g1", 9⟩ 5 =
      ⟨Except.error GameError.invalidCol, some demoGame, demoMgr, []⟩ :=
  ⟨(handleMove_error_spec demoMgr ⟨"h", "nope", 0⟩ 5).1 (by decide),
   ((((handleMove_error_spec demoMgr ⟨"bot", "g1", 0⟩ 5).2 demoGame
      (by decide)).2 (by decide)).2 ⟨"bot", CellP2, true⟩ (by decide)).1
     (by decide),
   ((((handleMove_error_spec demoMgr ⟨"h", "g1", 9⟩ 5).2 demoGame
      (by decide)).2 (by decide)).2 ⟨"h", CellP1, false⟩ (by decide)).2
     (by decide) GameError.invalidCol demoGame.board (by decide)⟩

/-- C5.  `AssignPlayer`: pairing a fresh identity with a distinct waiting
identity produces an active session — waiting identity keeps its mark A
slot and the first turn, the new identity gets mark B, both identities are
indexed, the waiting slot is cleared, and the call returns the session, the
mark-B participant and `isWaiting = false`; with nobody waiting, the fresh
identity becomes the sole waiting entry and the call returns
`isWaiting = true` with the rest of the registry unchanged. -/
theorem assignPlayer_spec (m : Manager) (username newId : String)
    (now : Int) :
    (∀ w, m.waiting = some w → w.username ≠ username → w.slot = CellP1 →
      m.userToGame.lookup username = none →
      (assignPlayer m username newId now).isWaiting = false ∧
      (assignPlayer m username newId now).mgr.waiting = none ∧
      (assignPlayer m username newId now).player =
        some ⟨username, CellP2, false⟩ ∧
      ∃ g, (assignPlayer m username newId now).game = some g ∧
        g.id = newId ∧ g.status = StatusActive ∧ g.turn = CellP1 ∧
        g.players =
          [(w.username, w), (username, ⟨username, CellP2, false⟩)] ∧
        g.players.lookup w.username = some w ∧
        (assignPlayer m username newId now).mgr.games.lookup newId =
          some g ∧
        (assignPlayer m username newId now).mgr.userToGame.lookup username =
          some newId ∧
        (assignPlayer m username newId now).mgr.userToGame.lookup
          w.username = some newId) ∧
    (m.waiting = none → m.userToGame.lookup username = none →
      assignPlayer m username newId now =
        ⟨none, some ⟨username, CellP1, false⟩, true,
         { m with waiting := some ⟨username, CellP1, false⟩ }⟩) := by
  constructor
  · intro w hw hne hslot hnew
    have hrj : rejoinGame m username = none := by
      unfold rejoinGame
      rw [hnew]
    have hmk : mkPlayers (w.username, w)
        (username, ⟨username, CellP2, false⟩) =
        [(w.username, w), (username, ⟨username, CellP2, false⟩)] := by
      unfold mkPlayers
      rw [if_neg hne]
    simp only [assignPlayer, hrj, hw, hmk]
    refine ⟨by trivial, by trivial, ?_, ?_⟩
    · have hbe : (username == w.username) = false :=
        beq_eq_false_iff_ne.mpr (fun he => hne he.symm)
      simp [List.lookup, hbe]
    · refine ⟨_, rfl, rfl, rfl, rfl, rfl, by simp [List.lookup], ?_, ?_, ?_⟩
      · exact lookup_setAssoc_self _ _ _
      · rw [lookup_setAssoc_ne _ _ _ _ (Ne.symm hne)]
        exact lookup_setAssoc_self _ _ _
      · exact lookup_setAssoc_self _ _ _
  · intro hw hnew
    have hrj : rejoinGame m username = none := by
      unfold rejoinGame
      rw [hnew]
    simp only [assignPlayer, hrj, hw]

/-- A registry in which identity "a" is waiting to be paired. -/
def waitMgr : Manager := (assignPlayer (newManager 30) "a" "ga" 0).mgr

/-- C5 witness: pairing "b" with the waiting "a" yields a non-waiting
result with the waiting slot cleared and "b" holding mark B. -/
theorem assignPlayer_spec_witness :
    (assignPlayer waitMgr "b" "g2" 1).isWaiting = false ∧
    (assignPlayer waitMgr "b" "g2" 1).mgr.waiting = none ∧
    (assignPlayer waitMgr "b" "g2" 1).player =
      some ⟨"b", CellP2, false⟩ := by
  have h := (assignPlayer_spec waitMgr "b" "g2" 1).1 ⟨"a", CellP1, false⟩
    (by decide) (by decide) (by decide) (by decide)
  exact ⟨h.1, h.2.1, h.2.2.1⟩

/-- The forfeit update `SweepDisconnects` applies to a stale session. -/
def forfeited (g : GameState) (now : Int) : GameState :=
  { g with
    status := StatusFinished
    winner := findRemainingPlayer g
    endedAt := now }

/-- C4 counterexample.  The claim: the forfeit winner is the session's sole
remaining non-algorithmic participant, or absent when there is none.  The
code disagrees on a reachable state: `StartBotGame` for the identity "bot"
collapses the two-entry Go map literal onto the single key "bot" holding
the algorithmic participant, so the session has no human at all — and the
sweep then sets the winner to the string "bot" instead of leaving it
absent (the empty string). -/
theorem sweepDisconnects_no_human_winner_bot :
    ∃ e ∈ (sweepDisconnects
        (startBotGame (newManager 30) "bot" "g1" 0).2 31).1.games,
      e.2.winner = "bot" ∧ e.2.winner ≠ "" ∧
      ∀ q ∈ e.2.players, q.2.isBot = true := by decide

/-- C4 (amended).  `SweepDisconnects` on a non-finished session whose
last-activity age exceeds the reconnection window: the session is forced to
finished with `ended-at = now` and its winner set by `findRemainingPlayer`,
the finish callback fires on it in this sweep, the winner is the sole
non-algorithmic participant whenever there is exactly one — but when no
non-algorithmic participant remains the winner is set to the string "bot"
rather than left absent — and, because the session is now finished, any
later sweep leaves the entry unchanged and does not fire the callback
again. -/
theorem sweepDisconnects_spec (m : Manager) (now : Int) (id : String)
    (g : GameState) (hmem : (id, g) ∈ m.games)
    (hfin : g.status ≠ StatusFinished)
    (hstale : m.reconnectAfter < now - g.lastMoveAt) :
    ((id, forfeited g now) ∈ (sweepDisconnects m now).1.games ∧
      forfeited g now ∈ (sweepDisconnects m now).2) ∧
    (∀ u p, g.players.filter (fun e => !e.2.isBot) = [(u, p)] →
      findRemainingPlayer g = u) ∧
    (g.players.filter (fun e => !e.2.isBot) = [] →
      findRemainingPlayer g = "bot") ∧
    (∀ later, sweepGame m.reconnectAfter later (id, forfeited g now) =
      ((id, forfeited g now), none)) := by
  have hsg : sweepGame m.reconnectAfter now (id, g) =
      ((id, forfeited g now), some (forfeited g now)) := by
    unfold sweepGame forfeited
    rw [if_pos ⟨hfin, hstale⟩]
  have h1 : ((id, forfeited g now), some (forfeited g now)) ∈
      m.games.map (sweepGame m.reconnectAfter now) := by
    rw [← hsg]
    exact List.mem_map_of_mem _ hmem
  refine ⟨⟨?_, ?_⟩, ?_, ?_, ?_⟩
  · exact List.mem_map_of_mem Prod.fst h1
  · exact List.mem_filterMap.mpr
      ⟨((id, forfeited g now), some (forfeited g now)), h1, rfl⟩
  · intro u p hup
    unfold findRemainingPlayer
    rw [find?_of_filter_singleton hup]
  · intro hnil
    have hnone : g.players.find? (fun e => !e.2.isBot) = none :=
      List.find?_eq_none.mpr (fun x hx =>
        by simpa using List.filter_eq_nil_iff.mp hnil x hx)
    unfold findRemainingPlayer
    rw [hnone]
  · intro later
    unfold sweepGame
    rw [if_neg (fun hcon => hcon.1 rfl)]

/-- C4 witness: sweeping the concrete stale session `g1` at time 31 (window
30, last activity 0) finishes it, fires the callback on it, and the sole
human "h" is the forfeit winner. -/
theorem sweepDisconnects_spec_witness :
    (("g1", forfeited demoGame 31) ∈ (sweepDisconnects demoMgr 31).1.games ∧
      forfeited demoGame 31 ∈ (sweepDisconnects demoMgr 31).2) ∧
    findRemainingPlayer demoGame = "h" := by
  have h := sweepDisconnects_spec demoMgr 31 "g1" demoGame (by decide)
    (by decide) (by decide)
  exact ⟨h.1, h.2.1 "h" ⟨"h", CellP1, false⟩ (by decide)⟩

/-! ## The turn invariant (claim C6) -/

/-- Strengthened per-session invariant: the turn mark is A or B and both
marks are held by some participant. -/
def turnSlotOK (g : GameState) : Prop :=
  (g.turn = CellP1 ∨ g.turn = CellP2) ∧
  (∃ e ∈ g.players, e.2.slot = CellP1) ∧
  (∃ e ∈ g.players, e.2.slot = CellP2)

/-- A waiting entry, when present, always holds mark A. -/
def waitingOK : Option Player → Prop
  | none => True
  | some w => w.slot = CellP1

instance : (o : Option Player) → Decidable (waitingOK o)
  | none => isTrue trivial
  | some w => Nat.decEq w.slot CellP1

/-- Registry-wide strengthened invariant. -/
def managerInv (m : Manager) : Prop :=
  waitingOK m.waiting ∧ ∀ e ∈ m.games, turnSlotOK e.2

instance (g : GameState) : Decidable (turnSlotOK g) := by
  unfold turnSlotOK
  infer_instance

instance (m : Manager) : Decidable (managerInv m) := by
  unfold managerInv
  infer_instance

/-- C6 counterexample.  The claim: for every session reachable through the
registry operations, the current-turn mark names a participant of the
session.  Reachable refutation: `AssignPlayer "a"` leaves "a" waiting
(waiting does not register in the identity index), and a second
`AssignPlayer "a"` then pairs "a" with itself; the Go two-entry map literal
collapses to the single key "a" holding mark B, while the turn is mark A —
the session's turn names nobody. -/
theorem assignPlayer_self_pairing_breaks_turn_invariant :
    ∃ e ∈ ((assignPlayer (assignPlayer (newManager 30) "a" "g1" 0).mgr
        "a" "g2" 1).mgr).games,
      ∀ q ∈ e.2.players, q.2.slot ≠ e.2.turn := by decide

/-- C6 (amended).  Provided `AssignPlayer` is never invoked with the
identity that is currently waiting, and `StartBotGame` is never invoked for
an identity named "bot", every registry operation preserves the invariant
that each session's turn mark is A or B and both marks are held by
participants — hence the current-turn mark always names a participant of
the session. -/
theorem registry_turn_invariant (m : Manager) (hm : managerInv m) :
    (∀ e ∈ m.games, ∃ q ∈ e.2.players, q.2.slot = e.2.turn) ∧
    (∀ username newId now,
      (∀ w, m.waiting = some w → w.username ≠ username) →
      managerInv (assignPlayer m username newId now).mgr) ∧
    (∀ human newId now, human ≠ "bot" →
      managerInv (startBotGame m human newId now).2) ∧
    (∀ mv now, managerInv (handleMove m mv now).mgr) ∧
    (∀ now, managerInv (sweepDisconnects m now).1) ∧
    (∀ username now, managerInv (markDisconnected m username now)) ∧
    (∀ username, managerInv (abandon m username)) := by
  refine ⟨?_, ?_, ?_, ?_, ?_, ?_, ?_⟩
  · intro e he
    obtain ⟨ht, hs1, hs2⟩ := hm.2 e he
    cases ht with
    | inl h =>
      obtain ⟨q, hq, hqs⟩ := hs1
      exact ⟨q, hq, by rw [hqs, h]⟩
    | inr h =>
      obtain ⟨q, hq, hqs⟩ := hs2
      exact ⟨q, hq, by rw [hqs, h]⟩
  · intro username newId now hself
    unfold assignPlayer
    cases hrj : rejoinGame m username with
    | some g => exact hm
    | none =>
      cases hw : m.waiting with
      | none => exact ⟨rfl, hm.2⟩
      | some opponent =>
        have hneq : opponent.username ≠ username := hself opponent hw
        have hop1 : opponent.slot = CellP1 := by
          have h := hm.1
          rw [hw] at h
          exact h
        refine ⟨trivial, fun e he => ?_⟩
        rcases mem_setAssoc he with he' | he'
        · subst he'
          refine ⟨Or.inl rfl, ?_, ?_⟩
          · simp only [mkPlayers, if_neg hneq]
            exact ⟨(opponent.username, opponent), by simp, hop1⟩
          · simp only [mkPlayers, if_neg hneq]
            exact ⟨(username, ⟨username, CellP2, false⟩), by simp, rfl⟩
        · exact hm.2 e he'
  · intro human newId now hbot
    unfold startBotGame
    cases hrj : rejoinGame m human with
    | some g => exact hm
    | none =>
      refine ⟨hm.1, fun e he => ?_⟩
      rcases mem_setAssoc he with he' | he'
      · subst he'
        refine ⟨Or.inl rfl, ?_, ?_⟩
        · simp only [mkPlayers, if_neg hbot]
          exact ⟨(human, ⟨human, CellP1, false⟩), by simp, rfl⟩
        · simp only [mkPlayers, if_neg hbot]
          exact ⟨("bot", ⟨"bot", CellP2, true⟩), by simp, rfl⟩
      · exact hm.2 e he'
  · intro mv now
    unfold handleMove
    cases hg : m.games.lookup mv.gameId with
    | none => exact hm
    | some game =>
      have hgame : turnSlotOK game := hm.2 (mv.gameId, game) (lookup_mem hg)
      dsimp only
      by_cases hfin : game.status = StatusFinished
      · rw [if_pos hfin]
        exact hm
      · rw [if_neg hfin]
        cases hp : game.players.lookup mv.username with
        | none => exact hm
        | some player =>
          dsimp only
          by_cases hturn : game.turn ≠ player.slot
          · rw [if_pos hturn]
            exact hm
          · rw [if_neg hturn]
            rcases hae : applyMove game.board mv.column player.slot with
              ⟨resx, b2⟩
            cases resx with
            | error e => exact hm
            | ok res =>
              dsimp only
              by_cases hwin : res.winner ≠ 0
              · rw [if_pos hwin]
                refine ⟨hm.1, fun e he => ?_⟩
                rcases mem_setAssoc he with he' | he'
                · subst he'
                  exact ⟨hgame.1, hgame.2.1, hgame.2.2⟩
                · exact hm.2 e he'
              · rw [if_neg hwin]
                by_cases hdraw : res.isDraw = true
                · rw [if_pos hdraw]
                  refine ⟨hm.1, fun e he => ?_⟩
                  rcases mem_setAssoc he with he' | he'
                  · subst he'
                    exact ⟨hgame.1, hgame.2.1, hgame.2.2⟩
                  · exact hm.2 e he'
                · rw [if_neg hdraw]
                  refine ⟨hm.1, fun e he => ?_⟩
                  rcases mem_setAssoc he with he' | he'
                  · subst he'
                    refine ⟨?_, hgame.2.1, hgame.2.2⟩
                    by_cases h1 : game.turn = CellP1
                    · exact Or.inr (by simp [h1])
                    · exact Or.inl (by simp [h1])
                  · exact hm.2 e he'
  · intro now
    refine ⟨hm.1, fun e he => ?_⟩
    obtain ⟨x, hx, rfl⟩ := List.mem_map.mp he
    obtain ⟨orig, horig, rfl⟩ := List.mem_map.mp hx
    have hk := hm.2 orig horig
    unfold sweepGame
    by_cases hc : orig.2.status ≠ StatusFinished ∧
        m.reconnectAfter < now - orig.2.lastMoveAt
    · rw [if_pos hc]
      exact hk
    · rw [if_neg hc]
      exact hk
  · intro username now
    unfold markDisconnected
    cases hu : m.userToGame.lookup username with
    | none => exact hm
    | some gid =>
      dsimp only
      cases hg : m.games.lookup gid with
      | none => exact hm
      | some g =>
        dsimp only
        refine ⟨hm.1, fun e he => ?_⟩
        rcases mem_setAssoc he with he' | he'
        · subst he'
          exact hm.2 (gid, g) (lookup_mem hg)
        · exact hm.2 e he'
  · intro username
    unfold abandon
    dsimp only
    cases hw : m.waiting with
    | none => exact ⟨trivial, hm.2⟩
    | some w =>
      dsimp only
      by_cases hn : w.username = username
      · rw [if_pos hn]
        exact ⟨trivial, hm.2⟩
      · rw [if_neg hn]
        have h := hm.1
        rw [hw] at h
        exact ⟨h, hm.2⟩

/-- C6 witness: the amended invariant holds of the concrete bot session and
is preserved by a concrete `HandleMove` call on it. -/
theorem registry_turn_invariant_witness :
    (∀ e ∈ demoMgr.games, ∃ q ∈ e.2.players, q.2.slot = e.2.turn) ∧
    managerInv (handleMove demoMgr ⟨"h", "g1", 3⟩ 5).mgr :=
  ⟨(registry_turn_invariant demoMgr (by decide)).1,
   (registry_turn_invariant demoMgr (by decide)).2.2.2.1 ⟨"h", "g1", 3⟩ 5⟩

end FourInARow
